import Mathlib

/-!
Verification development for the EnigmaIOT gateway core.

This file gives a shallow embedding of the parts of the repository that the
properties below are about:

* `EnigmaIOTRingBuffer` — the gateway receive ring buffer with its secondary
  overflow area (`src/src/EnigmaIOTRingBuffer.h`);
* the gateway message-type tags (`EnigmaIOTGateway.h`, enum
  `gatewayMessageType_t`) against the wire-format table of the specification;
* the counter / replay window check of the session subsystem (modelled from
  the specification, the implementing .cpp file is not part of the sources);
* the JSON controller's `sendJson` and the Home-Assistant discovery call
  cadence (`EnigmaIOTjsonController.h`).

C arrays are embedded as total functions `Nat → α`, `memcpy` into a cell as
`Function.update`; machine integers are `Nat`/`Int` with explicit wraparound
where the source relies on it (the `uint8_t` overflow index).  Fields written
by `new T[n]` without initialisation are modelled as `default`.
-/

namespace EnigmaIOT

/-- `MAX_OVERFLOW_BUFFER_SIZE` from `EnigmaIOTRingBuffer.h` (line 32). -/
def MAX_OVERFLOW_BUFFER_SIZE : Nat := 15

/-- State of `EnigmaIOTRingBuffer<Telement>` (`src/src/EnigmaIOTRingBuffer.h`).

`buffer` and `overflowBuffer` embed the two C arrays as total functions; only
indices below `maxSize` (resp. `MAX_OVERFLOW_BUFFER_SIZE`) correspond to
allocated memory.  `overflow_index` is the `uint8_t` field, kept as a `Nat`
in `[0, 255]`; its wrapping decrement is made explicit where the source
decrements it.  `dropped` is a ghost counter, absent from the source: it is
incremented exactly on the two paths of `pushInOverFlowBuffer` on which the
displaced victim is retained in neither buffer, so that the accounting of
displaced frames can be stated. -/
structure EnigmaIOTRingBuffer (α : Type) where
  maxSize : Nat
  numElements : Nat
  readIndex : Nat
  writeIndex : Nat
  buffer : Nat → α
  overflow_index : Nat
  overflowBuffer : Nat → α
  deleteOverflow : Bool
  dropped : Nat

namespace EnigmaIOTRingBuffer

variable {α : Type} [Inhabited α]

/-- The constructor `EnigmaIOTRingBuffer (int range)`: fresh buffer, both
arrays uninitialised (modelled as `default`), `overflow_index` at its
sentinel `MAX_OVERFLOW_BUFFER_SIZE + 1`. -/
def mk0 (range : Nat) : EnigmaIOTRingBuffer α :=
  { maxSize := range
    numElements := 0
    readIndex := 0
    writeIndex := 0
    buffer := fun _ => default
    overflow_index := MAX_OVERFLOW_BUFFER_SIZE + 1
    overflowBuffer := fun _ => default
    deleteOverflow := false
    dropped := 0 }

/-- `int size ()`. -/
def size (s : EnigmaIOTRingBuffer α) : Nat := s.numElements

/-- `bool isFull ()`. -/
def isFull (s : EnigmaIOTRingBuffer α) : Bool := s.numElements == s.maxSize

/-- `bool empty ()`. -/
def isEmpty (s : EnigmaIOTRingBuffer α) : Bool := s.numElements == 0

/-- The source's index-advance idiom: `idx++; if (idx >= maxSize) idx %= maxSize;`. -/
def bumpIndex (idx m : Nat) : Nat :=
  let idx := idx + 1
  if idx ≥ m then idx % m else idx

/-- `void shouldDeleteOverflowBuffer ()`: frees the overflow array when the
`deleteOverflow` flag is set (the freed array is modelled as reset to
`default`) and clears the flag. -/
def shouldDeleteOverflowBuffer (s : EnigmaIOTRingBuffer α) : EnigmaIOTRingBuffer α :=
  if s.deleteOverflow then
    { s with overflowBuffer := fun _ => default, deleteOverflow := false }
  else s

/-- `void pushInOverFlowBuffer ()`.

Branches of the source, in order:
* `overflow_index == MAX_OVERFLOW_BUFFER_SIZE + 1`: allocate the overflow
  array (`new Telement[15]`, uninitialised) and set `overflow_index = 0`;
  nothing is copied on this path, so the victim at `buffer[writeIndex]` is
  retained nowhere (ghost `dropped` is incremented);
* `overflow_index > MAX_OVERFLOW_BUFFER_SIZE - 1`: area full, discard
  (ghost `dropped` is incremented);
* otherwise `memcpy` the victim `buffer[writeIndex]` into
  `overflowBuffer[overflow_index++]`. -/
def pushInOverFlowBuffer (s : EnigmaIOTRingBuffer α) : EnigmaIOTRingBuffer α :=
  let s := shouldDeleteOverflowBuffer s
  if s.overflow_index = MAX_OVERFLOW_BUFFER_SIZE + 1 then
    { s with overflowBuffer := fun _ => default
             overflow_index := 0
             dropped := s.dropped + 1 }
  else if s.overflow_index > MAX_OVERFLOW_BUFFER_SIZE - 1 then
    { s with dropped := s.dropped + 1 }
  else
    { s with overflowBuffer :=
               Function.update s.overflowBuffer s.overflow_index (s.buffer s.writeIndex)
             overflow_index := s.overflow_index + 1 }

/-- `bool push (Telement* item)`.  Returns the updated state and the source's
return value `!wasFull`. -/
def push (s : EnigmaIOTRingBuffer α) (item : α) : EnigmaIOTRingBuffer α × Bool :=
  let wasFull := isFull s
  let s := if wasFull ∧ s.writeIndex = s.readIndex then pushInOverFlowBuffer s else s
  let s := { s with buffer := Function.update s.buffer s.writeIndex item }
  let s := { s with writeIndex := bumpIndex s.writeIndex s.maxSize }
  let s :=
    if wasFull then { s with readIndex := bumpIndex s.readIndex s.maxSize }
    else { s with numElements := s.numElements + 1 }
  (s, !wasFull)

/-- `bool pop ()`.  Returns the updated state and the source's return value
`!wasEmpty`. -/
def pop (s : EnigmaIOTRingBuffer α) : EnigmaIOTRingBuffer α × Bool :=
  let wasEmpty := isEmpty s
  if ¬ wasEmpty then
    ({ s with readIndex := bumpIndex s.readIndex s.maxSize
              numElements := s.numElements - 1 }, true)
  else (s, false)

/-- The pointer value returned by `front` / `frontOverflowBuffer`: `NULL`, a
pointer into the main array, or a pointer into the overflow array, recorded
with the accessed index. -/
inductive FrontPtr where
  | null : FrontPtr
  | mainPtr (i : Nat) : FrontPtr
  | overflowPtr (i : Nat) : FrontPtr
deriving DecidableEq, Repr

/-- `Telement* frontOverflowBuffer ()`.

The test `overflow_index - 1 == 0` is `int` arithmetic (the `uint8_t` is
promoted), hence compares `(overflow_index : Int) - 1` with `0`; the
pre-decrement `--overflow_index` is `uint8_t` arithmetic and wraps modulo
256. -/
def frontOverflowBuffer (s : EnigmaIOTRingBuffer α) :
    EnigmaIOTRingBuffer α × FrontPtr :=
  if s.overflow_index = MAX_OVERFLOW_BUFFER_SIZE + 1 then
    (shouldDeleteOverflowBuffer s, FrontPtr.null)
  else if (s.overflow_index : Int) - 1 = 0 then
    ({ s with overflow_index := MAX_OVERFLOW_BUFFER_SIZE + 1
              deleteOverflow := true }, FrontPtr.overflowPtr 0)
  else
    let oi := (s.overflow_index + 255) % 256
    ({ s with overflow_index := oi }, FrontPtr.overflowPtr oi)

/-- `Telement* front ()`. -/
def front (s : EnigmaIOTRingBuffer α) : EnigmaIOTRingBuffer α × FrontPtr :=
  let s := shouldDeleteOverflowBuffer s
  if ¬ isEmpty s then (s, FrontPtr.mainPtr s.readIndex)
  else frontOverflowBuffer s

/-- Number of elements currently stored in the overflow area: its write
index while the area is in its filling range, `0` at the sentinel. -/
def overflowCount (s : EnigmaIOTRingBuffer α) : Nat :=
  if s.overflow_index ≤ MAX_OVERFLOW_BUFFER_SIZE then s.overflow_index else 0

/-- Pushing a whole list of items, one `push` per element, with the
consumer idle (no intervening `pop`). -/
def pushList (s : EnigmaIOTRingBuffer α) : List α → EnigmaIOTRingBuffer α
  | [] => s
  | x :: xs => pushList (push s x).1 xs

/-- One operation of the claim-C4 scenario: a producer `push` or a consumer
`pop`. -/
inductive Op (α : Type) where
  | pushOp (x : α) : Op α
  | popOp : Op α

/-- Apply one operation to the buffer state. -/
def applyOp (s : EnigmaIOTRingBuffer α) : Op α → EnigmaIOTRingBuffer α
  | .pushOp x => (push s x).1
  | .popOp => (pop s).1

/-- Run a sequence of operations. -/
def runOps (s : EnigmaIOTRingBuffer α) : List (Op α) → EnigmaIOTRingBuffer α
  | [] => s
  | op :: ops => runOps (applyOp s op) ops

/-- The buffer is not full at any point of the run (before each operation
and after the last one). -/
def neverFull (s : EnigmaIOTRingBuffer α) : List (Op α) → Bool
  | [] => !isFull s
  | op :: ops => !isFull s && neverFull (applyOp s op) ops

/-- The ideal FIFO queue the ring refines while it never becomes full:
`push` appends at the back, `pop` removes at the front. -/
def fifoRun (q : List α) : List (Op α) → List α
  | [] => q
  | .pushOp x :: ops => fifoRun (q ++ [x]) ops
  | .popOp :: ops => fifoRun q.tail ops

/-- Abstraction function: the sequence of stored elements in arrival order,
read out of the main array starting at `readIndex`. -/
def absList (s : EnigmaIOTRingBuffer α) : List α :=
  (List.range s.numElements).map (fun i => s.buffer ((s.readIndex + i) % s.maxSize))

/-- Index bookkeeping invariant of the ring: positive capacity, read index
in range, write index determined by read index and population. -/
def Inv (s : EnigmaIOTRingBuffer α) : Prop :=
  0 < s.maxSize ∧ s.readIndex < s.maxSize ∧ s.numElements ≤ s.maxSize
    ∧ s.writeIndex = (s.readIndex + s.numElements) % s.maxSize

/-- The overflow machinery is untouched: the overflow index is at its
sentinel and no deferred deletion is pending.  This holds for a fresh
buffer and is preserved while the ring never overflows. -/
def overflowInert (s : EnigmaIOTRingBuffer α) : Prop :=
  s.overflow_index = MAX_OVERFLOW_BUFFER_SIZE + 1 ∧ s.deleteOverflow = false

/-- The element value behind the pointer `front` returns (under an inert
overflow area `front` does not mutate the state, so the value is read from
the argument state). -/
def frontVal (s : EnigmaIOTRingBuffer α) : Option α :=
  match (front s).2 with
  | .null => none
  | .mainPtr i => some (s.buffer i)
  | .overflowPtr i => some (s.overflowBuffer i)

/-- Combined invariant for the pure-push scenario of claim C1, after `k`
pushes: index bookkeeping, overflow index either in its filling range or at
the sentinel, no deferred deletion, and conservation of the `k` pushed
frames between the ring, the overflow area and the dropped count. -/
def C1Inv (m k : Nat) (s : EnigmaIOTRingBuffer α) : Prop :=
  s.maxSize = m ∧ s.numElements ≤ m ∧ s.readIndex < m
    ∧ s.writeIndex = (s.readIndex + s.numElements) % m
    ∧ (s.overflow_index ≤ MAX_OVERFLOW_BUFFER_SIZE
        ∨ s.overflow_index = MAX_OVERFLOW_BUFFER_SIZE + 1)
    ∧ s.deleteOverflow = false
    ∧ k = s.numElements + overflowCount s + s.dropped

end EnigmaIOTRingBuffer

/-- Concrete run for claim C2: capacity-2 buffer, three pushes; the third
push displaces the oldest frame (value `1`) while the overflow area is
freshly initiated and entirely free. -/
def c2Run : EnigmaIOTRingBuffer Nat :=
  (EnigmaIOTRingBuffer.push
    ((EnigmaIOTRingBuffer.push
      ((EnigmaIOTRingBuffer.push (EnigmaIOTRingBuffer.mk0 2) 1).1) 2).1) 3).1

/-- Concrete run for claim C6: capacity-1 buffer, two pushes (the second
initiates the overflow area, leaving `overflow_index = 0`) and one pop, so
the main ring is empty while the overflow area holds zero entries. -/
def c6Run : EnigmaIOTRingBuffer Nat :=
  (EnigmaIOTRingBuffer.pop
    ((EnigmaIOTRingBuffer.push
      ((EnigmaIOTRingBuffer.push (EnigmaIOTRingBuffer.mk0 1) 10).1) 20).1)).1

/-! ## Gateway message types (`EnigmaIOTGateway.h`, enum `gatewayMessageType_t`) -/

/-- The constructors of `gatewayMessageType_t`. -/
inductive gatewayMessageType_t where
  | SENSOR_DATA
  | SENSOR_BRCAST_DATA
  | UNENCRYPTED_NODE_DATA
  | DOWNSTREAM_DATA_SET
  | DOWNSTREAM_BRCAST_DATA_SET
  | DOWNSTREAM_DATA_GET
  | DOWNSTREAM_BRCAST_DATA_GET
  | CONTROL_DATA
  | DOWNSTREAM_CTRL_DATA
  | DOWNSTREAM_BRCAST_CTRL_DATA
  | HA_DISCOVERY_MESSAGE
  | CLOCK_REQUEST
  | CLOCK_RESPONSE
  | NODE_NAME_SET
  | NODE_NAME_RESULT
  | BROADCAST_KEY_REQUEST
  | BROADCAST_KEY_RESPONSE
  | CLIENT_HELLO
  | SERVER_HELLO
  | INVALIDATE_KEY
deriving DecidableEq, Repr

open gatewayMessageType_t in
/-- The numeric value each enumerator is assigned in `EnigmaIOTGateway.h`
(lines 41–62). -/
def gatewayMessageTag : gatewayMessageType_t → Nat
  | SENSOR_DATA => 0x01
  | SENSOR_BRCAST_DATA => 0x81
  | UNENCRYPTED_NODE_DATA => 0x11
  | DOWNSTREAM_DATA_SET => 0x02
  | DOWNSTREAM_BRCAST_DATA_SET => 0x82
  | DOWNSTREAM_DATA_GET => 0x12
  | DOWNSTREAM_BRCAST_DATA_GET => 0x92
  | CONTROL_DATA => 0x03
  | DOWNSTREAM_CTRL_DATA => 0x04
  | DOWNSTREAM_BRCAST_CTRL_DATA => 0x84
  | HA_DISCOVERY_MESSAGE => 0x08
  | CLOCK_REQUEST => 0x05
  | CLOCK_RESPONSE => 0x06
  | NODE_NAME_SET => 0x07
  | NODE_NAME_RESULT => 0x17
  | BROADCAST_KEY_REQUEST => 0x08
  | BROADCAST_KEY_RESPONSE => 0x18
  | CLIENT_HELLO => 0xFF
  | SERVER_HELLO => 0xFE
  | INVALIDATE_KEY => 0xFB

open gatewayMessageType_t in
/-- The tag column of the wire-format table in §6 of the specification,
transcribed type by type from the specification's words. -/
def specWireTag : gatewayMessageType_t → Nat
  | CLIENT_HELLO => 0xFF
  | SERVER_HELLO => 0xFE
  | SENSOR_DATA => 0x01
  | SENSOR_BRCAST_DATA => 0x81
  | UNENCRYPTED_NODE_DATA => 0x11
  | DOWNSTREAM_DATA_SET => 0x02
  | DOWNSTREAM_DATA_GET => 0x12
  | DOWNSTREAM_BRCAST_DATA_SET => 0x82
  | DOWNSTREAM_BRCAST_DATA_GET => 0x92
  | CONTROL_DATA => 0x03
  | DOWNSTREAM_CTRL_DATA => 0x04
  | DOWNSTREAM_BRCAST_CTRL_DATA => 0x84
  | HA_DISCOVERY_MESSAGE => 0x08
  | CLOCK_REQUEST => 0x05
  | CLOCK_RESPONSE => 0x06
  | NODE_NAME_SET => 0x07
  | NODE_NAME_RESULT => 0x17
  | BROADCAST_KEY_REQUEST => 0x08
  | BROADCAST_KEY_RESPONSE => 0x18
  | INVALIDATE_KEY => 0xFB

/-! ## Counter / replay window check (§4.3) -/

/-- Modelled from the spec: the counter acceptance test of §4.3.  The code
implementing it (`EnigmaIOTGateway.cpp`, data-message processing) is not
among the provided sources; per the specification, a received data frame
with counter `received` against session state `last_accepted` is accepted
iff `(received − last_accepted) mod 2^16 ∈ (0, W]`, and on acceptance
`lost = (received − last_accepted − 1) mod 2^16` is reported.  Returns
`some lost` on acceptance and `none` on rejection. -/
def checkCounter (received last_accepted W : Nat) : Option Nat :=
  let diff : Int := ((received : Int) - (last_accepted : Int)) % 65536
  if 0 < diff ∧ diff ≤ (W : Int) then
    some ((((received : Int) - (last_accepted : Int) - 1) % 65536).toNat)
  else
    none

/-- Default window `W` of §4.3. -/
def DEFAULT_COUNTER_WINDOW : Nat := 256

/-! ## JSON controller (`EnigmaIOTjsonController.h`) -/

/-- `bool sendJson (DynamicJsonDocument& json)`, with the serialisation
abstracted away: the payload is an opaque `msg` and the registered send
callback (field `sendData`, set by `sendDataCallback`) is `none` when no
callback is registered.  The second component is ghost instrumentation,
absent from the source: the number of times the callback is invoked during
the call (the source invokes it in at most one place, guarded by
`if (sendData)`). -/
def sendJson {β : Type} (sendData : Option (β → Bool)) (msg : β) : Bool × Nat :=
  let result := false
  match sendData with
  | some cb => (cb msg, 1)
  | none => (result, 0)

/-- Configuration constants of the Home-Assistant discovery cadence.  Their
numeric values live in `EnigmaIoTconfigAdvanced.h`, which is not among the
provided sources, so they are kept abstract as a parameter record. -/
structure HAConfig where
  HA_FIRST_DISCOVERY_DELAY : Nat
  HA_NEXT_DISCOVERY_DELAY : Nat

/-- Modelled from the spec: §4.8 says the two cadence delays are doubled
when the peer is sleepy; the `_SLEEPY` constants themselves are defined in
`EnigmaIoTconfigAdvanced.h`, which is not among the provided sources. -/
def HAConfig.HA_FIRST_DISCOVERY_DELAY_SLEEPY (c : HAConfig) : Nat :=
  2 * c.HA_FIRST_DISCOVERY_DELAY

/-- Modelled from the spec: §4.8, next-item delay doubled when sleepy (see
`HAConfig.HA_FIRST_DISCOVERY_DELAY_SLEEPY`). -/
def HAConfig.HA_NEXT_DISCOVERY_DELAY_SLEEPY (c : HAConfig) : Nat :=
  2 * c.HA_NEXT_DISCOVERY_DELAY

/-- The Home-Assistant related state of `EnigmaIOTjsonController`: the queue
of pending discovery calls (calls are identified by opaque `Nat` tokens),
the `doSendHAdiscovery` flag, the time of the last reference event
(`sendHAtime`) and the currently required delay (`sendHAdelay`). -/
structure JsonControllerState where
  haCallQueue : List Nat
  doSendHAdiscovery : Bool
  sendHAtime : Nat
  sendHAdelay : Nat

/-- Field initialisers of `EnigmaIOTjsonController`:
`doSendHAdiscovery = false`, `sendHAdelay = HA_FIRST_DISCOVERY_DELAY`,
empty call queue. -/
def initJsonController (c : HAConfig) : JsonControllerState :=
  { haCallQueue := []
    doSendHAdiscovery := false
    sendHAtime := 0
    sendHAdelay := c.HA_FIRST_DISCOVERY_DELAY }

/-- `void connectInform ()` (HA-discovery part).  `sleepy` is the value of
`enigmaIotNode->getNode ()->getSleepy ()`, `now` the value of `millis ()`. -/
def connectInform (c : HAConfig) (s : JsonControllerState) (sleepy : Bool)
    (now : Nat) : JsonControllerState :=
  let s :=
    if sleepy then { s with sendHAdelay := c.HA_FIRST_DISCOVERY_DELAY_SLEEPY }
    else s
  { s with doSendHAdiscovery := true, sendHAtime := now }

/-- `void addHACall (haDiscovery_call_t HACall)`. -/
def addHACall (s : JsonControllerState) (hacall : Nat) : JsonControllerState :=
  { s with haCallQueue := s.haCallQueue ++ [hacall] }

/-- `void callHAdiscoveryCalls ()`.  `sleepy` and `now` as in
`connectInform`.  Returns the updated state and `some hacall` when a queued
discovery call was executed, `none` otherwise.  Queued calls are modelled as
non-null, so `hacall` is truthy exactly when the queue was non-empty. -/
def callHAdiscoveryCalls (c : HAConfig) (s : JsonControllerState)
    (sleepy : Bool) (now : Nat) : JsonControllerState × Option Nat :=
  if s.doSendHAdiscovery ∧ now - s.sendHAtime > s.sendHAdelay then
    match s.haCallQueue with
    | hacall :: rest =>
        ({ s with haCallQueue := rest
                  sendHAtime := now
                  sendHAdelay :=
                    if sleepy then c.HA_NEXT_DISCOVERY_DELAY_SLEEPY
                    else c.HA_NEXT_DISCOVERY_DELAY }, some hacall)
    | [] => ({ s with doSendHAdiscovery := false }, none)
  else (s, none)

/-! ## Helper lemmas -/

namespace EnigmaIOTRingBuffer

variable {α : Type} [Inhabited α]

theorem bumpIndex_eq_mod (i m : Nat) : bumpIndex i m = (i + 1) % m := by
  unfold bumpIndex
  by_cases h1 : i + 1 ≥ m
  · simp [h1]
  · have h2 : i + 1 < m := lt_of_not_ge h1
    simp [h1, Nat.mod_eq_of_lt h2]

theorem bumpIndex_lt (i m : Nat) (hm : 0 < m) : bumpIndex i m < m := by
  rw [bumpIndex_eq_mod i m]
  exact Nat.mod_lt _ hm

theorem shouldDelete_of_not_pending (s : EnigmaIOTRingBuffer α)
    (h : s.deleteOverflow = false) : shouldDeleteOverflowBuffer s = s := by
  simp [shouldDeleteOverflowBuffer, h]

/-- `pushInOverFlowBuffer` never touches the main ring fields. -/
theorem pushInOverFlowBuffer_main (s : EnigmaIOTRingBuffer α) :
    (pushInOverFlowBuffer s).maxSize = s.maxSize
    ∧ (pushInOverFlowBuffer s).numElements = s.numElements
    ∧ (pushInOverFlowBuffer s).readIndex = s.readIndex
    ∧ (pushInOverFlowBuffer s).writeIndex = s.writeIndex
    ∧ (pushInOverFlowBuffer s).buffer = s.buffer := by
  simp only [pushInOverFlowBuffer, shouldDeleteOverflowBuffer]
  split_ifs <;> simp

/-- Projections of a `push` on a full buffer whose write and read indices
coincide (the overwrite path). -/
theorem push_full_proj (s : EnigmaIOTRingBuffer α) (x : α)
    (h : isFull s = true) (hwr : s.writeIndex = s.readIndex) :
    (push s x).1.maxSize = s.maxSize
    ∧ (push s x).1.numElements = s.numElements
    ∧ (push s x).1.readIndex = bumpIndex s.readIndex s.maxSize
    ∧ (push s x).1.writeIndex = bumpIndex s.writeIndex s.maxSize
    ∧ (push s x).1.buffer = Function.update s.buffer s.writeIndex x
    ∧ (push s x).1.overflow_index = (pushInOverFlowBuffer s).overflow_index
    ∧ (push s x).1.overflowBuffer = (pushInOverFlowBuffer s).overflowBuffer
    ∧ (push s x).1.deleteOverflow = (pushInOverFlowBuffer s).deleteOverflow
    ∧ (push s x).1.dropped = (pushInOverFlowBuffer s).dropped
    ∧ (push s x).2 = false := by
  obtain ⟨hm, hn, hr, hw, hb⟩ := pushInOverFlowBuffer_main s
  unfold push
  simp only [h, hwr, if_pos (And.intro rfl rfl), if_pos rfl]
  simp [hm, hn, hr, hw, hb]
  constructor <;> rw [hwr]

/-- Projections of a `push` on a non-full buffer. -/
theorem push_not_full_proj (s : EnigmaIOTRingBuffer α) (x : α)
    (h : isFull s = false) :
    (push s x).1.maxSize = s.maxSize
    ∧ (push s x).1.numElements = s.numElements + 1
    ∧ (push s x).1.readIndex = s.readIndex
    ∧ (push s x).1.writeIndex = bumpIndex s.writeIndex s.maxSize
    ∧ (push s x).1.buffer = Function.update s.buffer s.writeIndex x
    ∧ (push s x).1.overflow_index = s.overflow_index
    ∧ (push s x).1.overflowBuffer = s.overflowBuffer
    ∧ (push s x).1.deleteOverflow = s.deleteOverflow
    ∧ (push s x).1.dropped = s.dropped
    ∧ (push s x).2 = true := by
  unfold push
  simp [h]

theorem overflowCount_le (s : EnigmaIOTRingBuffer α) :
    overflowCount s ≤ MAX_OVERFLOW_BUFFER_SIZE := by
  unfold overflowCount
  split
  · assumption
  · exact Nat.zero_le _

/-- Effect of `pushInOverFlowBuffer` on the overflow bookkeeping when no
deferred deletion is pending and the overflow index is in its legal range:
the index stays in range, deletion stays clear, and exactly one displaced
frame is accounted for — either stored (count grows) or dropped. -/
theorem pushInOverFlowBuffer_account (s : EnigmaIOTRingBuffer α)
    (hdel : s.deleteOverflow = false)
    (hoi : s.overflow_index ≤ MAX_OVERFLOW_BUFFER_SIZE
      ∨ s.overflow_index = MAX_OVERFLOW_BUFFER_SIZE + 1) :
    ((pushInOverFlowBuffer s).overflow_index ≤ MAX_OVERFLOW_BUFFER_SIZE
      ∨ (pushInOverFlowBuffer s).overflow_index = MAX_OVERFLOW_BUFFER_SIZE + 1)
    ∧ (pushInOverFlowBuffer s).deleteOverflow = false
    ∧ overflowCount (pushInOverFlowBuffer s) + (pushInOverFlowBuffer s).dropped
        = overflowCount s + s.dropped + 1 := by
  have hsd : shouldDeleteOverflowBuffer s = s := shouldDelete_of_not_pending s hdel
  unfold pushInOverFlowBuffer
  rw [hsd]
  by_cases h1 : s.overflow_index = MAX_OVERFLOW_BUFFER_SIZE + 1
  · simp only [if_pos h1]
    refine ⟨Or.inl (Nat.zero_le _), hdel, ?_⟩
    simp [overflowCount, h1, MAX_OVERFLOW_BUFFER_SIZE]
  · simp only [if_neg h1]
    have hle : s.overflow_index ≤ MAX_OVERFLOW_BUFFER_SIZE := by
      rcases hoi with h | h
      · exact h
      · exact absurd h h1
    by_cases h2 : s.overflow_index > MAX_OVERFLOW_BUFFER_SIZE - 1
    · have h15 : s.overflow_index = MAX_OVERFLOW_BUFFER_SIZE := by
        unfold MAX_OVERFLOW_BUFFER_SIZE at *
        omega
      simp only [if_pos h2]
      refine ⟨Or.inl hle, hdel, ?_⟩
      simp [overflowCount, h15]
      omega
    · have h14 : s.overflow_index + 1 ≤ MAX_OVERFLOW_BUFFER_SIZE := by
        unfold MAX_OVERFLOW_BUFFER_SIZE at *
        omega
      simp only [if_neg h2]
      refine ⟨Or.inl h14, hdel, ?_⟩
      simp [overflowCount, hle, h14]
      omega

/-- One `push` preserves the C1 invariant, with the push count advanced. -/
theorem c1_step (m k : Nat) (hm : 0 < m) (s : EnigmaIOTRingBuffer α) (x : α)
    (h : C1Inv m k s) : C1Inv m (k + 1) (push s x).1 := by
  obtain ⟨hms, hn, hr, hw, hoi, hdel, hk⟩ := h
  by_cases hF : s.numElements = s.maxSize
  · have hfull : isFull s = true := by simp [isFull, hF]
    have hnm : s.numElements = m := by rw [hF, hms]
    have hwr : s.writeIndex = s.readIndex := by
      rw [hw, hnm, Nat.add_mod_right, Nat.mod_eq_of_lt hr]
    obtain ⟨pm, pn, pr, pw, pb, poi, pob, pdel, pdr, p2⟩ := push_full_proj s x hfull hwr
    obtain ⟨qoi, qdel, qcnt⟩ := pushInOverFlowBuffer_account s hdel hoi
    have hrlt : (s.readIndex + 1) % m < m := Nat.mod_lt _ hm
    have hcnt : overflowCount (push s x).1 = overflowCount (pushInOverFlowBuffer s) := by
      simp [overflowCount, poi]
    refine ⟨by rw [pm, hms], ?_, ?_, ?_, ?_, ?_, ?_⟩
    · rw [pn]; exact hn
    · rw [pr, hms, bumpIndex_eq_mod]; exact hrlt
    · rw [pr, pw, pn, hms, bumpIndex_eq_mod, bumpIndex_eq_mod, hwr, hnm,
        Nat.add_mod_right, Nat.mod_eq_of_lt hrlt]
    · rw [poi]; exact qoi
    · rw [pdel]; exact qdel
    · rw [pn, hcnt, pdr]
      omega
  · have hnotfull : isFull s = false := by simp [isFull, hF]
    have hlt : s.numElements < m := lt_of_le_of_ne hn (by rw [hms] at hF; exact hF)
    obtain ⟨pm, pn, pr, pw, pb, poi, pob, pdel, pdr, p2⟩ := push_not_full_proj s x hnotfull
    have hcnt : overflowCount (push s x).1 = overflowCount s := by
      simp [overflowCount, poi]
    refine ⟨by rw [pm, hms], ?_, ?_, ?_, ?_, ?_, ?_⟩
    · rw [pn]; omega
    · rw [pr]; exact hr
    · rw [pw, pr, pn, hms, bumpIndex_eq_mod, hw]
      exact (Nat.mod_modEq (s.readIndex + s.numElements) m).add_right 1
    · rw [poi]; exact hoi
    · rw [pdel]; exact hdel
    · rw [pn, hcnt, pdr]
      omega

/-- The C1 invariant holds along any pure-push run. -/
theorem c1Inv_pushList (m : Nat) (hm : 0 < m) :
    ∀ (xs : List α) (s : EnigmaIOTRingBuffer α) (k : Nat), C1Inv m k s →
      C1Inv m (k + xs.length) (pushList s xs)
  | [], s, k, h => by simpa [pushList] using h
  | x :: xs, s, k, h => by
      have h2 := c1Inv_pushList m hm xs (push s x).1 (k + 1) (c1_step m k hm s x h)
      simpa [pushList, Nat.add_comm, Nat.add_assoc, Nat.add_left_comm] using h2

theorem c1Inv_init (m : Nat) (hm : 0 < m) : C1Inv m 0 (mk0 m : EnigmaIOTRingBuffer α) := by
  refine ⟨rfl, Nat.zero_le m, hm, by simp [mk0], Or.inr rfl, rfl, ?_⟩
  simp [mk0, overflowCount, MAX_OVERFLOW_BUFFER_SIZE]

theorem addModCancel {r i n m : Nat} (hi : i < m) (hn : n < m)
    (h : (r + i) % m = (r + n) % m) : i = n := by
  have h2 : i % m = n % m := Nat.ModEq.add_left_cancel' r h
  rwa [Nat.mod_eq_of_lt hi, Nat.mod_eq_of_lt hn] at h2

/-- A `push` on a non-full ring appends the item to the abstract content. -/
theorem absList_push (s : EnigmaIOTRingBuffer α) (x : α)
    (hm : 0 < s.maxSize) (hr : s.readIndex < s.maxSize)
    (hw : s.writeIndex = (s.readIndex + s.numElements) % s.maxSize)
    (hlt : s.numElements < s.maxSize) :
    absList (push s x).1 = absList s ++ [x] := by
  have hnotfull : isFull s = false := by
    simp [isFull]
    omega
  obtain ⟨pm, pn, pr, pw, pb, _, _, _, _, _⟩ := push_not_full_proj s x hnotfull
  unfold absList
  rw [pm, pn, pr, pb, List.range_succ, List.map_append]
  congr 1
  · apply List.map_congr_left
    intro i hi
    have hi2 : i < s.numElements := List.mem_range.mp hi
    apply Function.update_noteq
    rw [hw]
    intro hcontra
    have := addModCancel (lt_trans hi2 hlt) hlt hcontra
    omega
  · simp only [List.map_cons, List.map_nil]
    rw [hw, Function.update_same]

/-- A `pop` removes the head of the abstract content. -/
theorem absList_pop (s : EnigmaIOTRingBuffer α)
    (hm : 0 < s.maxSize) (hr : s.readIndex < s.maxSize) :
    absList (pop s).1 = (absList s).tail := by
  by_cases hE : isEmpty s = true
  · have h0 : s.numElements = 0 := by simpa [isEmpty] using hE
    have hp : (pop s).1 = s := by
      unfold pop
      simp [hE]
    rw [hp]
    simp [absList, h0]
  · have h0 : s.numElements ≠ 0 := by
      intro h
      rw [isEmpty] at hE
      simp [h] at hE
    have hp : (pop s).1 = { s with readIndex := bumpIndex s.readIndex s.maxSize
                                   numElements := s.numElements - 1 } := by
      unfold pop
      simp [hE]
    obtain ⟨k, hk⟩ : ∃ k, s.numElements = k + 1 := ⟨s.numElements - 1, by omega⟩
    rw [hp]
    unfold absList
    simp only [hk, Nat.add_sub_cancel, List.range_succ_eq_map, List.map_cons,
      List.tail_cons, List.map_map]
    apply List.map_congr_left
    intro i hi
    have hi2 : i < k := List.mem_range.mp hi
    simp only [Function.comp]
    congr 1
    rw [bumpIndex_eq_mod]
    calc ((s.readIndex + 1) % s.maxSize + i) % s.maxSize
        = (s.readIndex + 1 + i) % s.maxSize :=
          (Nat.mod_modEq (s.readIndex + 1) s.maxSize).add_right i
      _ = (s.readIndex + Nat.succ i) % s.maxSize := by
          congr 1
          omega

/-- With the overflow machinery untouched, `front` reads the head of the
abstract content (and `NULL` corresponds to the empty queue). -/
theorem frontVal_head (s : EnigmaIOTRingBuffer α)
    (hr : s.readIndex < s.maxSize) (hIn : overflowInert s) :
    frontVal s = (absList s).head? := by
  unfold frontVal front
  rw [shouldDelete_of_not_pending s hIn.2]
  by_cases hE : isEmpty s = true
  · have h0 : s.numElements = 0 := by simpa [isEmpty] using hE
    simp [hE, frontOverflowBuffer, hIn.1, absList, h0]
  · have h0 : s.numElements ≠ 0 := by
      intro h
      rw [isEmpty] at hE
      simp [h] at hE
    obtain ⟨k, hk⟩ : ∃ k, s.numElements = k + 1 := ⟨s.numElements - 1, by omega⟩
    rw [if_pos hE]
    show some (s.buffer s.readIndex) = _
    rw [absList, hk, List.range_succ_eq_map, List.map_cons, List.head?_cons,
      Nat.add_zero, Nat.mod_eq_of_lt hr]

theorem pop_untouched_fields (s : EnigmaIOTRingBuffer α) :
    (pop s).1.maxSize = s.maxSize
    ∧ (pop s).1.writeIndex = s.writeIndex
    ∧ (pop s).1.overflow_index = s.overflow_index
    ∧ (pop s).1.deleteOverflow = s.deleteOverflow := by
  unfold pop
  by_cases hE : isEmpty s = true <;> simp [hE]

theorem Inv_push (s : EnigmaIOTRingBuffer α) (x : α)
    (hInv : Inv s) (hful : isFull s = false) : Inv (push s x).1 := by
  obtain ⟨hm, hr, hn, hw⟩ := hInv
  have hne : s.numElements ≠ s.maxSize := by
    intro h
    simp [isFull, h] at hful
  obtain ⟨pm, pn, pr, pw, _, _, _, _, _, _⟩ := push_not_full_proj s x hful
  refine ⟨by rw [pm]; exact hm, by rw [pr, pm]; exact hr, by rw [pn, pm]; omega, ?_⟩
  rw [pw, pr, pn, pm, bumpIndex_eq_mod, hw]
  exact (Nat.mod_modEq (s.readIndex + s.numElements) s.maxSize).add_right 1

theorem Inv_pop (s : EnigmaIOTRingBuffer α) (hInv : Inv s) : Inv (pop s).1 := by
  obtain ⟨hm, hr, hn, hw⟩ := hInv
  by_cases hE : isEmpty s = true
  · have hp : (pop s).1 = s := by
      unfold pop
      simp [hE]
    rw [hp]
    exact ⟨hm, hr, hn, hw⟩
  · have h0 : s.numElements ≠ 0 := by
      intro h
      rw [isEmpty] at hE
      simp [h] at hE
    have hp : (pop s).1 = { s with readIndex := bumpIndex s.readIndex s.maxSize
                                   numElements := s.numElements - 1 } := by
      unfold pop
      simp [hE]
    rw [hp]
    refine ⟨hm, by simp [bumpIndex_lt _ _ hm], by simp; omega, ?_⟩
    simp only [bumpIndex_eq_mod]
    rw [hw]
    calc (s.readIndex + s.numElements) % s.maxSize
        = (s.readIndex + 1 + (s.numElements - 1)) % s.maxSize := by
          congr 1
          omega
      _ = ((s.readIndex + 1) % s.maxSize + (s.numElements - 1)) % s.maxSize :=
          ((Nat.mod_modEq (s.readIndex + 1) s.maxSize).add_right (s.numElements - 1)).symm

end EnigmaIOTRingBuffer

/-! ## Claim theorems -/

open gatewayMessageType_t in
/-- C5: every message-type constant of the gateway enum
`gatewayMessageType_t` equals the tag the §6 wire-format table lists for it,
and the value `0x08` is assigned to both `HA_DISCOVERY_MESSAGE` and
`BROADCAST_KEY_REQUEST`, so those two message types carry the same on-wire
tag. -/
theorem c5_message_tags_match_wire_table :
    (∀ t : gatewayMessageType_t, gatewayMessageTag t = specWireTag t)
    ∧ gatewayMessageTag HA_DISCOVERY_MESSAGE = 0x08
    ∧ gatewayMessageTag BROADCAST_KEY_REQUEST = 0x08
    ∧ gatewayMessageTag HA_DISCOVERY_MESSAGE
        = gatewayMessageTag BROADCAST_KEY_REQUEST := by
  refine ⟨fun t => ?_, rfl, rfl, rfl⟩
  cases t <;> rfl

/-- C8: `sendJson` returns `false` exactly when no send callback is
registered or the registered callback returns `false`; the callback is
invoked at most once (no retry), so a send failure is surfaced to the
caller only through the boolean return value. -/
theorem c8_sendJson_failure_surfaced {β : Type}
    (sendData : Option (β → Bool)) (msg : β) :
    ((sendJson sendData msg).1 = false ↔
      sendData = none ∨ ∃ cb, sendData = some cb ∧ cb msg = false)
    ∧ (sendJson sendData msg).2 ≤ 1 := by
  cases sendData with
  | none => simp [sendJson]
  | some cb => simp [sendJson]

/-- C3: a received data frame with counter `received` against session state
`last_accepted` is accepted by the window check exactly when
`(received − last_accepted) mod 2^16` lies in `(0, W]`, and on acceptance
the reported loss is `(received − last_accepted − 1) mod 2^16`, which
equals the modular difference minus one. -/
theorem c3_counter_window_acceptance (received last_accepted W lost : Nat) :
    checkCounter received last_accepted W = some lost ↔
      (0 < ((received : Int) - (last_accepted : Int)) % 65536
        ∧ ((received : Int) - (last_accepted : Int)) % 65536 ≤ (W : Int)
        ∧ (lost : Int) = ((received : Int) - (last_accepted : Int) - 1) % 65536
        ∧ (lost : Int)
            = ((received : Int) - (last_accepted : Int)) % 65536 - 1) := by
  unfold checkCounter
  by_cases h : 0 < ((received : Int) - (last_accepted : Int)) % 65536
      ∧ ((received : Int) - (last_accepted : Int)) % 65536 ≤ (W : Int)
  · have he : (0:Int) ≤ ((received : Int) - (last_accepted : Int) - 1) % 65536 :=
      Int.emod_nonneg _ (by norm_num)
    have hlt : ((received : Int) - (last_accepted : Int)) % 65536 < 65536 :=
      Int.emod_lt_of_pos _ (by norm_num)
    have hstep : ((received : Int) - (last_accepted : Int) - 1) % 65536
        = ((received : Int) - (last_accepted : Int)) % 65536 - 1 := by
      obtain ⟨ha, hb⟩ := h
      omega
    simp only [if_pos h]
    constructor
    · intro h2
      have h3 := Option.some.inj h2
      refine ⟨h.1, h.2, ?_, ?_⟩
      · rw [← h3, Int.toNat_of_nonneg he]
      · rw [← h3, Int.toNat_of_nonneg he, hstep]
    · rintro ⟨h1, h2, h3, h4⟩
      have h5 : (((received : Int) - (last_accepted : Int) - 1) % 65536).toNat
          = lost := by
        have := congrArg Int.toNat h3
        simpa using this.symm
      rw [h5]
  · simp only [if_neg h]
    constructor
    · intro h2; cases h2
    · rintro ⟨h1, h2, h3, h4⟩
      exact absurd ⟨h1, h2⟩ h

namespace EnigmaIOTRingBuffer

variable {α : Type} [Inhabited α]

/-- C9: `push` returns `true` iff the buffer was not full before the call;
afterwards `numElements` equals `min (previous + 1) maxSize`; when the
buffer was full both `readIndex` and `writeIndex` advance by exactly one
modulo the capacity, the buffer remains full, and the new item sits at the
old `readIndex`, replacing the oldest element. -/
theorem c9_push_contract (s : EnigmaIOTRingBuffer α) (x : α)
    (hm : 0 < s.maxSize) (hr : s.readIndex < s.maxSize)
    (hw : s.writeIndex = (s.readIndex + s.numElements) % s.maxSize)
    (hn : s.numElements ≤ s.maxSize) :
    ((push s x).2 = true ↔ isFull s = false)
    ∧ (push s x).1.numElements = min (s.numElements + 1) s.maxSize
    ∧ (isFull s = true →
        (push s x).1.readIndex = (s.readIndex + 1) % s.maxSize
        ∧ (push s x).1.writeIndex = (s.writeIndex + 1) % s.maxSize
        ∧ isFull (push s x).1 = true
        ∧ (push s x).1.buffer s.readIndex = x) := by
  by_cases hF : s.numElements = s.maxSize
  · have hfull : isFull s = true := by simp [isFull, hF]
    have hwr : s.writeIndex = s.readIndex := by
      rw [hw, hF, Nat.add_mod_right, Nat.mod_eq_of_lt hr]
    obtain ⟨pm, pn, pr, pw, pb, _, _, _, _, p2⟩ := push_full_proj s x hfull hwr
    refine ⟨?_, ?_, fun _ => ⟨?_, ?_, ?_, ?_⟩⟩
    · simp [p2, hfull]
    · rw [pn, hF, min_eq_right (Nat.le_succ _)]
    · rw [pr, bumpIndex_eq_mod]
    · rw [pw, bumpIndex_eq_mod]
    · simp [isFull, pn, pm, hF]
    · rw [pb, hwr, Function.update_same]
  · have hnotfull : isFull s = false := by simp [isFull, hF]
    obtain ⟨pm, pn, pr, pw, pb, _, _, _, _, p2⟩ := push_not_full_proj s x hnotfull
    have hlt : s.numElements < s.maxSize := lt_of_le_of_ne hn hF
    refine ⟨?_, ?_, fun hc => absurd hc (by simp [hnotfull])⟩
    · simp [p2, hnotfull]
    · rw [pn, min_eq_left (by omega)]

/-- C9 witness: a full capacity-1 buffer obtained by one push; pushing a
second element exercises the overwrite path. -/
theorem c9_push_contract_witness :
    (0 < ((push (mk0 1 : EnigmaIOTRingBuffer Nat) 7).1).maxSize
      ∧ ((push (mk0 1 : EnigmaIOTRingBuffer Nat) 7).1).readIndex
          < ((push (mk0 1 : EnigmaIOTRingBuffer Nat) 7).1).maxSize
      ∧ ((push (mk0 1 : EnigmaIOTRingBuffer Nat) 7).1).writeIndex
          = (((push (mk0 1 : EnigmaIOTRingBuffer Nat) 7).1).readIndex
              + ((push (mk0 1 : EnigmaIOTRingBuffer Nat) 7).1).numElements)
            % ((push (mk0 1 : EnigmaIOTRingBuffer Nat) 7).1).maxSize
      ∧ ((push (mk0 1 : EnigmaIOTRingBuffer Nat) 7).1).numElements
          ≤ ((push (mk0 1 : EnigmaIOTRingBuffer Nat) 7).1).maxSize)
    ∧ (((push ((push (mk0 1 : EnigmaIOTRingBuffer Nat) 7).1) 8).2 = true
          ↔ isFull ((push (mk0 1 : EnigmaIOTRingBuffer Nat) 7).1) = false)
        ∧ ((push ((push (mk0 1 : EnigmaIOTRingBuffer Nat) 7).1) 8).1).numElements
            = min (((push (mk0 1 : EnigmaIOTRingBuffer Nat) 7).1).numElements + 1)
                (((push (mk0 1 : EnigmaIOTRingBuffer Nat) 7).1).maxSize)
        ∧ (isFull ((push (mk0 1 : EnigmaIOTRingBuffer Nat) 7).1) = true →
            ((push ((push (mk0 1 : EnigmaIOTRingBuffer Nat) 7).1) 8).1).readIndex
              = (((push (mk0 1 : EnigmaIOTRingBuffer Nat) 7).1).readIndex + 1)
                % (((push (mk0 1 : EnigmaIOTRingBuffer Nat) 7).1).maxSize)
            ∧ ((push ((push (mk0 1 : EnigmaIOTRingBuffer Nat) 7).1) 8).1).writeIndex
              = (((push (mk0 1 : EnigmaIOTRingBuffer Nat) 7).1).writeIndex + 1)
                % (((push (mk0 1 : EnigmaIOTRingBuffer Nat) 7).1).maxSize)
            ∧ isFull ((push ((push (mk0 1 : EnigmaIOTRingBuffer Nat) 7).1) 8).1) = true
            ∧ ((push ((push (mk0 1 : EnigmaIOTRingBuffer Nat) 7).1) 8).1).buffer
                (((push (mk0 1 : EnigmaIOTRingBuffer Nat) 7).1).readIndex) = 8)) :=
  ⟨⟨by decide, by decide, by decide, by decide⟩,
    c9_push_contract ((push (mk0 1 : EnigmaIOTRingBuffer Nat) 7).1) 8
      (by decide) (by decide) (by decide) (by decide)⟩

/-- C10: `pop` on an empty ring buffer returns `false` and leaves the state
unchanged; on a non-empty buffer it returns `true`, advances `readIndex` by
one modulo the capacity, leaves `writeIndex` alone and decreases
`numElements` by exactly one. -/
theorem c10_pop_contract (s : EnigmaIOTRingBuffer α) :
    (isEmpty s = true → (pop s).2 = false ∧ (pop s).1 = s)
    ∧ (isEmpty s = false →
        (pop s).2 = true
        ∧ (pop s).1.readIndex = (s.readIndex + 1) % s.maxSize
        ∧ (pop s).1.writeIndex = s.writeIndex
        ∧ (pop s).1.numElements = s.numElements - 1
        ∧ 1 ≤ s.numElements) := by
  constructor
  · intro hE
    unfold pop
    simp [hE]
  · intro hE
    have hpos : s.numElements ≠ 0 := by
      intro h0
      rw [isEmpty] at hE
      simp [h0] at hE
    refine ⟨?_, ?_, ?_, ?_, ?_⟩
    · simp [pop, hE]
    · simp [pop, hE, bumpIndex_eq_mod]
    · simp [pop, hE]
    · simp [pop, hE]
    · omega

/-- C1: after any sequence of pushes on a fresh gateway receive buffer with
no intervening pops, the main ring holds at most `maxSize` elements, the
secondary overflow area holds at most its fixed capacity of
`MAX_OVERFLOW_BUFFER_SIZE = 15` entries, and every further displaced frame
is accounted as dropped: the number of pushes equals ring population plus
overflow population plus the dropped count. -/
theorem c1_receive_queue_bound (m : Nat) (hm : 0 < m) (xs : List α) :
    size (pushList (mk0 m : EnigmaIOTRingBuffer α) xs) ≤ m
    ∧ overflowCount (pushList (mk0 m : EnigmaIOTRingBuffer α) xs)
        ≤ MAX_OVERFLOW_BUFFER_SIZE
    ∧ xs.length
        = size (pushList (mk0 m : EnigmaIOTRingBuffer α) xs)
          + overflowCount (pushList (mk0 m : EnigmaIOTRingBuffer α) xs)
          + (pushList (mk0 m : EnigmaIOTRingBuffer α) xs).dropped := by
  have h := c1Inv_pushList m hm xs (mk0 m) 0 (c1Inv_init m hm)
  obtain ⟨hms, hn, hr, hw, hoi, hdel, hk⟩ := h
  refine ⟨hn, overflowCount_le _, ?_⟩
  simpa using hk

/-- C1 witness: capacity-2 buffer, four pushes; the ring keeps two frames,
the overflow area keeps one, and one displaced frame is dropped (at the
overflow-area initiation). -/
theorem c1_receive_queue_bound_witness :
    0 < 2
    ∧ (size (pushList (mk0 2 : EnigmaIOTRingBuffer Nat) [1, 2, 3, 4]) ≤ 2
        ∧ overflowCount (pushList (mk0 2 : EnigmaIOTRingBuffer Nat) [1, 2, 3, 4])
            ≤ MAX_OVERFLOW_BUFFER_SIZE
        ∧ (List.length [1, 2, 3, 4])
            = size (pushList (mk0 2 : EnigmaIOTRingBuffer Nat) [1, 2, 3, 4])
              + overflowCount (pushList (mk0 2 : EnigmaIOTRingBuffer Nat) [1, 2, 3, 4])
              + (pushList (mk0 2 : EnigmaIOTRingBuffer Nat) [1, 2, 3, 4]).dropped) :=
  ⟨by decide, c1_receive_queue_bound 2 (by decide) [1, 2, 3, 4]⟩

/-- C4: as long as the ring buffer never becomes full, it refines a FIFO
queue: over any sequence of `push` and `pop` operations the abstract
content (the stored elements in arrival order) evolves exactly like the
ideal queue — `push` appends at the back, `pop` removes at the front — and
`front` returns precisely the head of that queue, so `front`/`pop` yield
the stored elements in exactly the order they were pushed. -/
theorem c4_fifo_refinement (s : EnigmaIOTRingBuffer α) (ops : List (Op α))
    (hInv : Inv s) (hIn : overflowInert s) (hnf : neverFull s ops = true) :
    Inv (runOps s ops) ∧ overflowInert (runOps s ops)
    ∧ absList (runOps s ops) = fifoRun (absList s) ops
    ∧ frontVal (runOps s ops) = (fifoRun (absList s) ops).head? := by
  induction ops generalizing s with
  | nil =>
      exact ⟨hInv, hIn, rfl, frontVal_head s hInv.2.1 hIn⟩
  | cons op ops ih =>
      rw [neverFull, Bool.and_eq_true] at hnf
      obtain ⟨hful1, hnf2⟩ := hnf
      have hful : isFull s = false := by
        simpa using hful1
      cases op with
      | pushOp x =>
          obtain ⟨hm, hr, hn, hw⟩ := hInv
          have hne : s.numElements ≠ s.maxSize := by
            intro h
            simp [isFull, h] at hful
          have hInv2 : Inv (push s x).1 := Inv_push s x ⟨hm, hr, hn, hw⟩ hful
          obtain ⟨_, _, _, _, _, poi, _, pdel, _, _⟩ := push_not_full_proj s x hful
          have hIn2 : overflowInert (push s x).1 :=
            ⟨by rw [poi]; exact hIn.1, by rw [pdel]; exact hIn.2⟩
          have habs : absList (push s x).1 = absList s ++ [x] :=
            absList_push s x hm hr hw (lt_of_le_of_ne hn hne)
          have h3 := ih (push s x).1 hInv2 hIn2 hnf2
          refine ⟨h3.1, h3.2.1, ?_, ?_⟩
          · show absList (runOps (push s x).1 ops) = fifoRun (absList s ++ [x]) ops
            rw [h3.2.2.1, habs]
          · show frontVal (runOps (push s x).1 ops) = (fifoRun (absList s ++ [x]) ops).head?
            rw [h3.2.2.2, habs]
      | popOp =>
          obtain ⟨hm, hr, hn, hw⟩ := hInv
          have hInv2 : Inv (pop s).1 := Inv_pop s ⟨hm, hr, hn, hw⟩
          obtain ⟨_, _, qoi, qdel⟩ := pop_untouched_fields s
          have hIn2 : overflowInert (pop s).1 :=
            ⟨by rw [qoi]; exact hIn.1, by rw [qdel]; exact hIn.2⟩
          have habs : absList (pop s).1 = (absList s).tail := absList_pop s hm hr
          have h3 := ih (pop s).1 hInv2 hIn2 hnf2
          refine ⟨h3.1, h3.2.1, ?_, ?_⟩
          · show absList (runOps (pop s).1 ops) = fifoRun (absList s).tail ops
            rw [h3.2.2.1, habs]
          · show frontVal (runOps (pop s).1 ops) = (fifoRun (absList s).tail ops).head?
            rw [h3.2.2.2, habs]

/-- C4 witness: capacity-3 buffer, operations push 1, push 2, pop, push 4;
the buffer never becomes full and the run is instantiated in the
refinement theorem. -/
theorem c4_fifo_refinement_witness :
    (Inv (mk0 3 : EnigmaIOTRingBuffer Nat)
      ∧ overflowInert (mk0 3 : EnigmaIOTRingBuffer Nat)
      ∧ neverFull (mk0 3 : EnigmaIOTRingBuffer Nat)
          [Op.pushOp 1, Op.pushOp 2, Op.popOp, Op.pushOp 4] = true)
    ∧ (Inv (runOps (mk0 3 : EnigmaIOTRingBuffer Nat)
          [Op.pushOp 1, Op.pushOp 2, Op.popOp, Op.pushOp 4])
        ∧ overflowInert (runOps (mk0 3 : EnigmaIOTRingBuffer Nat)
            [Op.pushOp 1, Op.pushOp 2, Op.popOp, Op.pushOp 4])
        ∧ absList (runOps (mk0 3 : EnigmaIOTRingBuffer Nat)
              [Op.pushOp 1, Op.pushOp 2, Op.popOp, Op.pushOp 4])
            = fifoRun (absList (mk0 3 : EnigmaIOTRingBuffer Nat))
                [Op.pushOp 1, Op.pushOp 2, Op.popOp, Op.pushOp 4]
        ∧ frontVal (runOps (mk0 3 : EnigmaIOTRingBuffer Nat)
              [Op.pushOp 1, Op.pushOp 2, Op.popOp, Op.pushOp 4])
            = (fifoRun (absList (mk0 3 : EnigmaIOTRingBuffer Nat))
                [Op.pushOp 1, Op.pushOp 2, Op.popOp, Op.pushOp 4]).head?) :=
  ⟨⟨⟨by decide, by decide, by decide, by decide⟩, ⟨rfl, rfl⟩, by decide⟩,
    c4_fifo_refinement (mk0 3 : EnigmaIOTRingBuffer Nat)
      [Op.pushOp 1, Op.pushOp 2, Op.popOp, Op.pushOp 4]
      ⟨by decide, by decide, by decide, by decide⟩ ⟨rfl, rfl⟩ (by decide)⟩

/-- C10 witness: popping a one-element capacity-2 buffer. -/
theorem c10_pop_contract_witness :
    isEmpty ((push (mk0 2 : EnigmaIOTRingBuffer Nat) 7).1) = false
    ∧ ((pop ((push (mk0 2 : EnigmaIOTRingBuffer Nat) 7).1)).2 = true
        ∧ ((pop ((push (mk0 2 : EnigmaIOTRingBuffer Nat) 7).1)).1).readIndex
            = (((push (mk0 2 : EnigmaIOTRingBuffer Nat) 7).1).readIndex + 1)
              % (((push (mk0 2 : EnigmaIOTRingBuffer Nat) 7).1).maxSize)
        ∧ ((pop ((push (mk0 2 : EnigmaIOTRingBuffer Nat) 7).1)).1).writeIndex
            = ((push (mk0 2 : EnigmaIOTRingBuffer Nat) 7).1).writeIndex
        ∧ ((pop ((push (mk0 2 : EnigmaIOTRingBuffer Nat) 7).1)).1).numElements
            = ((push (mk0 2 : EnigmaIOTRingBuffer Nat) 7).1).numElements - 1
        ∧ 1 ≤ ((push (mk0 2 : EnigmaIOTRingBuffer Nat) 7).1).numElements) :=
  ⟨by decide,
    (c10_pop_contract ((push (mk0 2 : EnigmaIOTRingBuffer Nat) 7).1)).2 (by decide)⟩

end EnigmaIOTRingBuffer

open EnigmaIOTRingBuffer in
/-- C2 (evaluation at the failing input): on the very first overflow —
capacity-2 buffer, pushes `1, 2, 3` — `pushInOverFlowBuffer` only initiates
the overflow area (`overflow_index = 0`, zero stored entries) and the
displaced oldest frame (value `1`) is retained in neither the ring (which
now holds `2, 3`) nor the overflow area, although the overflow area has all
15 slots free.  This contradicts the claim that no victim is lost while the
overflow area has free space, including on the very first overflow. -/
theorem c2_first_overflow_victim_lost :
    c2Run.dropped = 1
    ∧ overflowCount c2Run = 0
    ∧ c2Run.overflow_index = 0
    ∧ c2Run.numElements = 2
    ∧ c2Run.readIndex = 1
    ∧ c2Run.buffer 1 = 2 ∧ c2Run.buffer 0 = 3 := by decide

open EnigmaIOTRingBuffer in
/-- C6 (evaluation at the failing input): in the reachable state where the
main ring is empty and the overflow area has just been initiated
(`overflow_index = 0`), `front` reaches `frontOverflowBuffer`, whose
`uint8_t` pre-decrement wraps to 255, so the returned pointer indexes the
15-element overflow array at 255 — outside `[0, 14]`.  This contradicts the
claim that `front` accesses the overflow buffer only at indices in
`[0, 14]` in that state. -/
theorem c6_front_overflow_out_of_bounds :
    isEmpty c6Run = true
    ∧ c6Run.overflow_index = 0
    ∧ (front c6Run).2 = FrontPtr.overflowPtr 255
    ∧ ¬ (255 < MAX_OVERFLOW_BUFFER_SIZE) := by decide

/-- C7: after `connectInform` the reference time is the connect instant and
the required delay is the first-item delay (doubled when sleepy); a queued
discovery call is executed by `callHAdiscoveryCalls` only when more than
the required delay has elapsed since the reference time — hence at least
the delay has elapsed — and an executed call resets the reference time to
the call instant and the required delay to the next-item delay (doubled
when sleepy), which then gates the subsequent call. -/
theorem c7_ha_discovery_cadence (c : HAConfig) (s : JsonControllerState)
    (sleepy sleepyAtCall : Bool) (t0 now : Nat) :
    ((connectInform c (initJsonController c) sleepy t0).sendHAtime = t0
      ∧ (connectInform c (initJsonController c) sleepy t0).sendHAdelay
          = (if sleepy then 2 * c.HA_FIRST_DISCOVERY_DELAY
             else c.HA_FIRST_DISCOVERY_DELAY)
      ∧ (connectInform c (initJsonController c) sleepy t0).doSendHAdiscovery = true)
    ∧ (∀ hacall : Nat,
        (callHAdiscoveryCalls c s sleepyAtCall now).2 = some hacall →
          now - s.sendHAtime > s.sendHAdelay
          ∧ (callHAdiscoveryCalls c s sleepyAtCall now).1.sendHAtime = now
          ∧ (callHAdiscoveryCalls c s sleepyAtCall now).1.sendHAdelay
              = (if sleepyAtCall then 2 * c.HA_NEXT_DISCOVERY_DELAY
                 else c.HA_NEXT_DISCOVERY_DELAY)) := by
  constructor
  · unfold connectInform initJsonController HAConfig.HA_FIRST_DISCOVERY_DELAY_SLEEPY
    cases sleepy <;> simp
  · intro hacall hexec
    unfold callHAdiscoveryCalls HAConfig.HA_NEXT_DISCOVERY_DELAY_SLEEPY at hexec ⊢
    by_cases hc : s.doSendHAdiscovery ∧ now - s.sendHAtime > s.sendHAdelay
    · simp only [if_pos hc] at hexec ⊢
      cases hq : s.haCallQueue with
      | nil =>
          rw [hq] at hexec
          simp at hexec
      | cons a rest =>
          rw [hq] at hexec
          exact ⟨hc.2, rfl, rfl⟩
    · simp [if_neg hc] at hexec

/-- C7 witness: configuration with first-item delay 10 and next-item delay
4, a non-sleepy peer connecting at time 0 with one queued call; the call is
executed at time 11 and the cadence facts are instantiated there. -/
theorem c7_ha_discovery_cadence_witness :
    (callHAdiscoveryCalls ⟨10, 4⟩
        (addHACall (connectInform ⟨10, 4⟩ (initJsonController ⟨10, 4⟩) false 0) 5)
        false 11).2 = some 5
    ∧ (11 - (addHACall (connectInform ⟨10, 4⟩ (initJsonController ⟨10, 4⟩) false 0) 5).sendHAtime
          > (addHACall (connectInform ⟨10, 4⟩ (initJsonController ⟨10, 4⟩) false 0) 5).sendHAdelay
        ∧ (callHAdiscoveryCalls ⟨10, 4⟩
            (addHACall (connectInform ⟨10, 4⟩ (initJsonController ⟨10, 4⟩) false 0) 5)
            false 11).1.sendHAtime = 11
        ∧ (callHAdiscoveryCalls ⟨10, 4⟩
            (addHACall (connectInform ⟨10, 4⟩ (initJsonController ⟨10, 4⟩) false 0) 5)
            false 11).1.sendHAdelay
          = (if false then 2 * HAConfig.HA_NEXT_DISCOVERY_DELAY ⟨10, 4⟩
             else HAConfig.HA_NEXT_DISCOVERY_DELAY ⟨10, 4⟩)) :=
  ⟨by decide,
    (c7_ha_discovery_cadence ⟨10, 4⟩
        (addHACall (connectInform ⟨10, 4⟩ (initJsonController ⟨10, 4⟩) false 0) 5)
        false false 0 11).2 5 (by decide)⟩

end EnigmaIOT
